import Mathlib

/-!
Verification of the Freeform state manager (src/freeform_state_manager.js).

The file embeds the form-state codec (`extractFormState` / `applyFormState` /
`restoreField`), the snapshot-envelope staleness policy (`restoreFormState` /
`clearFormState`), the submit cleanup (`handleFormSubmit`), the input-listener
debounce wiring (`attachInputListeners` / `debounce`), and the file-size
formatter (`formatFileSize`) as executable Lean definitions, and settles the
frozen claims about them.

Modelling conventions:
- A form is a list of form controls (`Elem`) in document order.  Native
  control kinds that the code distinguishes (`restoreField`'s switch) are
  `checkbox`, `radio`, `select-multiple`, `file`; every other control
  (text-like inputs, textarea, hidden, select-one) follows the default
  branch and is modelled as `ElemType.text`.
- `FormData.entries()` yields, in document order: one entry per text-like
  control, one per checked checkbox/radio, one per selected option of a
  multiple select, and one `File` object per file input.  A `File` survives
  `JSON.stringify` as `{}`; it is modelled as `SVal.fileStub`.
- JS truthiness matters in `extractFormState`: `if (state[key])` is false
  for the empty string, so an empty first value is overwritten instead of
  being promoted to a list.  `truthy` captures exactly this.
- The custom-widget pass (`state._custom`, `extractCustomElements`,
  `restoreCustomElements`) only toggles CSS classes and renders the
  informational file notice; it never writes a field value, so it is outside
  the `Elem` model.  Its file notice formatter `formatFileSize` is embedded
  separately.
- Timestamps are integers (epoch milliseconds); `Math.log`-based order
  computation in `formatFileSize` is modelled by the exact floor logarithm
  (ECMAScript leaves `Math.log` implementation-approximated, and
  `bytes / 1024^i` is an exact power-of-two division on doubles for
  realistic sizes, so exact rational semantics is the defensible reading).
-/

namespace Freeform

/-- A snapshot scalar: a captured string value, or the `{}` husk left by JSON
round-tripping a `File` object. -/
inductive SVal
  | s (v : String)
  | fileStub
deriving DecidableEq, Repr

/-- A stored field value: a scalar, or a list produced by the multi-value
accumulation in `extractFormState`. -/
inductive StateVal
  | one (v : SVal)
  | many (l : List SVal)
deriving DecidableEq, Repr

/-- The control kinds distinguished by `restoreField`'s switch; `text` is the
default branch (text-like inputs, textarea, hidden, select-one). -/
inductive ElemType
  | text
  | checkbox
  | radio
  | selectMultiple
  | file
deriving DecidableEq, Repr

/-- One form control: name, kind, current string value (text value, or the
value attribute of a checkbox/radio), checked flag, and for a multiple
select its options as (value, selected) pairs in document order. -/
structure Elem where
  name : String
  etype : ElemType
  value : String
  checked : Bool
  options : List (String × Bool)
deriving DecidableEq, Repr

/-- A form: its controls in document order. -/
abbrev Form := List Elem

/-- The encoded snapshot: `state` minus the metadata keys.  `fields` is the
insertion-ordered JS object of non-metadata entries, `unchecked` is
`state._unchecked`.  (`state._custom` never writes field values and is not
modelled; see the header.) -/
structure FormState where
  fields : List (String × StateVal)
  unchecked : List String
deriving DecidableEq, Repr

/-- Default `excludeFields` from the constructor options. -/
def defaultExcludeFields : List String := ["honeypot", "csrf_token", "CRAFT_CSRF_TOKEN"]

/-! ## Encoding: `extractFormState` -/

/-- The `FormData.entries()` values contributed by one control (document
order): successful controls only — nothing for an unnamed control (FormData
skips controls without a non-empty name), nothing for an unchecked
checkbox/radio or an unselected option, one `File` entry per file input. -/
def elemValues (e : Elem) : List SVal :=
  if e.name = "" then []
  else
    match e.etype with
    | ElemType.text => [SVal.s e.value]
    | ElemType.checkbox => if e.checked then [SVal.s e.value] else []
    | ElemType.radio => if e.checked then [SVal.s e.value] else []
    | ElemType.selectMultiple =>
        (e.options.filter (fun o => o.2)).map (fun o => SVal.s o.1)
    | ElemType.file => [SVal.fileStub]

/-- The `FormData.entries()` contributions of one control, each under the
control's name. -/
def elemEntries (e : Elem) : List (String × SVal) :=
  (elemValues e).map (fun v => (e.name, v))

/-- `new FormData(form)` as the ordered entry list. -/
def formDataEntries (f : Form) : List (String × SVal) :=
  f.flatMap elemEntries

/-- JS truthiness of a stored value: only the empty string is falsy (arrays
and `File` objects are truthy). -/
def truthy : StateVal → Bool
  | StateVal.one (SVal.s v) => decide (v ≠ "")
  | StateVal.one SVal.fileStub => true
  | StateVal.many _ => true

/-- List promotion in `extractFormState`: a scalar joined by a second value
becomes a two-element list, a list appends. -/
def promote : StateVal → SVal → StateVal
  | StateVal.one u, v => StateVal.many [u, v]
  | StateVal.many l, v => StateVal.many (l ++ [v])

/-- `state[key] = ...` for one FormData entry:
`if (state[key]) { promote/push } else { state[key] = value }`.
A present-but-falsy (empty string) value is overwritten, not promoted;
assignment to an existing key keeps its insertion position. -/
def addEntry : List (String × StateVal) → String → SVal → List (String × StateVal)
  | [], k, v => [(k, StateVal.one v)]
  | (k1, w) :: rest, k, v =>
      if k = k1 then
        (if truthy w then (k1, promote w v) else (k1, StateVal.one v)) :: rest
      else
        (k1, w) :: addEntry rest k v

/-- Plain JS assignment `state[name] = value` (radio pass): replace in place
or append. -/
def setEntry : List (String × StateVal) → String → StateVal → List (String × StateVal)
  | [], k, v => [(k, v)]
  | (k1, w) :: rest, k, v =>
      if k = k1 then (k1, v) :: rest else (k1, w) :: setEntry rest k v

/-- The FormData loop of `extractFormState`: entries in order, skipping
excluded names, accumulating multi-values per `addEntry`. -/
def accumFields (exclude : List String) (entries : List (String × SVal)) :
    List (String × StateVal) :=
  entries.foldl
    (fun st kv => if kv.1 ∈ exclude then st else addEntry st kv.1 kv.2) []

/-- The checked-radio pass of `extractFormState`:
`querySelectorAll('input[type="radio"]:checked')` in document order, skipping
excluded names, plain assignment `state[name] = radio.value`. -/
def radioPass (exclude : List String) (f : Form) (st : List (String × StateVal)) :
    List (String × StateVal) :=
  (f.filter (fun e => e.etype = ElemType.radio ∧ e.checked = true)).foldl
    (fun st e =>
      if e.name ∈ exclude then st
      else setEntry st e.name (StateVal.one (SVal.s e.value))) st

/-- The unchecked-checkbox pass of `extractFormState`: the names of all
non-excluded unchecked checkboxes, in document order (duplicates kept). -/
def uncheckedNames (exclude : List String) (f : Form) : List String :=
  (f.filter (fun e =>
    e.etype = ElemType.checkbox ∧ e.name ∉ exclude ∧ e.checked = false)).map Elem.name

/-- `extractFormState(form)`: the FormData loop with exclusion and
multi-value accumulation, then the unchecked-checkbox pass, then the
checked-radio pass.  (`state._custom` is outside the field model.) -/
def extractFormState (exclude : List String) (f : Form) : FormState :=
  { fields := radioPass exclude f (accumFields exclude (formDataEntries f))
  , unchecked := uncheckedNames exclude f }

/-! ## Decoding: `applyFormState` / `restoreField` -/

/-- `element.value = x` coercion: a string stays itself, an object renders
as "[object Object]". -/
def svalToString : SVal → String
  | SVal.s v => v
  | SVal.fileStub => "[object Object]"

/-- Default branch of `restoreField`:
`element.value = Array.isArray(value) ? value[0] : value`
(`value[0]` of an empty array is `undefined`, which coerces to "undefined"). -/
def restoreScalarString : StateVal → String
  | StateVal.one v => svalToString v
  | StateVal.many [] => "undefined"
  | StateVal.many (v :: _) => svalToString v

/-- Checkbox branch: `value.includes(element.value)` for a list, strict
equality otherwise. -/
def checkboxChecked (v : StateVal) (elemValue : String) : Bool :=
  match v with
  | StateVal.many l => l.contains (SVal.s elemValue)
  | StateVal.one u => u = SVal.s elemValue

/-- Radio branch: `element.value === value` (an array is never strictly
equal to a string). -/
def radioChecked (v : StateVal) (elemValue : String) : Bool :=
  match v with
  | StateVal.one u => u = SVal.s elemValue
  | StateVal.many _ => false

/-- Multiple-select branch: membership test per option. -/
def optionSelected (v : StateVal) (optValue : String) : Bool :=
  match v with
  | StateVal.many l => l.contains (SVal.s optValue)
  | StateVal.one u => u = SVal.s optValue

/-- `restoreField`'s per-element switch, applied to one control when its
name matches the state key (file inputs are never mutated; the dispatched
change event has no field effect). -/
def restoreElem (k : String) (v : StateVal) (e : Elem) : Elem :=
  if e.name = k then
    match e.etype with
    | ElemType.checkbox => { e with checked := checkboxChecked v e.value }
    | ElemType.radio => { e with checked := radioChecked v e.value }
    | ElemType.selectMultiple =>
        { e with options := e.options.map (fun o => (o.1, optionSelected v o.1)) }
    | ElemType.file => e
    | ElemType.text => { e with value := restoreScalarString v }
  else e

/-- `restoreField(form, name, value)`: `querySelectorAll([name=...])` and
apply the switch to every match. -/
def restoreField (f : Form) (k : String) (v : StateVal) : Form :=
  f.map (restoreElem k v)

/-- `key.startsWith('_')` — the metadata-key test of `applyFormState`.  For
the one-character pattern this is exactly "the first character is the
underscore"; it is embedded as a head-character test because that form
evaluates inside the kernel. -/
def isMetaKey (k : String) : Bool :=
  match k.data with
  | [] => false
  | c :: _ => c = '_'

/-- The `_unchecked` pass:
`form.querySelector('input[type="checkbox"][name="..."]')` matches only the
FIRST checkbox with that name; it is forced unchecked. -/
def uncheckFirst : Form → String → Form
  | [], _ => []
  | e :: es, n =>
      if e.etype = ElemType.checkbox ∧ e.name = n then
        { e with checked := false } :: es
      else
        e :: uncheckFirst es n

/-- `applyFormState(form, state)`: the generic pass over non-metadata keys
(keys starting with "_" are skipped), then the `_unchecked` pass.  The
`_custom` pass touches no field values and is outside the model. -/
def applyFormState (f : Form) (st : FormState) : Form :=
  st.unchecked.foldl uncheckFirst
    ((st.fields.filter (fun kv => isMetaKey kv.1 = false)).foldl
      (fun g kv => restoreField g kv.1 kv.2) f)

/-! ## Snapshot envelope, storage and lifecycle -/

/-- 24 hours in milliseconds (`maxAge` in `restoreFormState`). -/
def maxAgeMs : Int := 24 * 60 * 60 * 1000

/-- One stored payload under a form's storage key after `JSON.parse`:
either the parse (or destructuring) throws, or it yields
`{state, timestamp, url}` (the url plays no role in restore). -/
inductive Stored
  | malformedJson
  | payload (state : FormState) (timestamp : Int)
deriving DecidableEq, Repr

/-- `restoreFormState`, as a function of the current time, the stored entry
under the form's key and the form: returns the storage entry after the
attempt and the (possibly updated) form.
- no entry: return early;
- `JSON.parse` throws: the catch block only logs — the entry is KEPT;
- stale (`Date.now() - timestamp > maxAge`): `clearFormState` removes the
  entry and nothing is applied;
- fresh: the snapshot is applied, the entry is kept. -/
def restoreFormState (now : Int) (storage : Option Stored) (f : Form) :
    Option Stored × Form :=
  match storage with
  | none => (none, f)
  | some Stored.malformedJson => (some Stored.malformedJson, f)
  | some (Stored.payload st ts) =>
      if now - ts > maxAgeMs then (none, f)
      else (some (Stored.payload st ts), applyFormState f st)

/-- Fixed deferred-check delay in `handleFormSubmit` (milliseconds). -/
def submitCheckDelay : Nat := 1000

/-- What `handleFormSubmit` does synchronously: storage untouched, and a
deferred check scheduled iff `clearOnSubmit`. -/
structure SubmitEffect where
  storageAfterSubmit : Option Stored
  scheduledCheckDelay : Option Nat
deriving DecidableEq, Repr

/-- The submit handler: it never touches storage itself; with
`clearOnSubmit` it schedules the presence check after `submitCheckDelay`. -/
def handleFormSubmit (clearOnSubmit : Bool) (storage : Option Stored) : SubmitEffect :=
  { storageAfterSubmit := storage
  , scheduledCheckDelay := if clearOnSubmit then some submitCheckDelay else none }

/-- `clearFormState(formId)`, as a function of whether the registry still
holds the form id: its first line is
`const formData = this.forms.get(formId); if (!formData) return;`, so only a
still-registered form's storage entry is removed — an unregistered id
returns early and the entry survives. -/
def clearFormState (registryHasForm : Bool) (storage : Option Stored) :
    Option Stored :=
  if registryHasForm then none else storage

/-- The deferred check body scheduled by `handleFormSubmit`: if the form's
element is still found on the page (`document.querySelector`), return early
(state retained); otherwise call `clearFormState`, whose registry guard
makes the removal conditional on the form id still being in `this.forms`.
The check runs 1000ms after submit, and swup's `contentReplaced` hook does
`this.forms.clear()` and rebuilds the registry, so by then the id may be
gone even though the deferred check still fires. -/
def submitDeferredCheck (formStillPresent registryHasForm : Bool)
    (storage : Option Stored) : Option Stored :=
  if formStillPresent then storage
  else clearFormState registryHasForm storage

/-! ## Debounce wiring (`attachInputListeners` / `debounce`) -/

/-- One call of a debounced closure returned by `debounce(func, wait)`:
`clearTimeout(timeout); timeout = setTimeout(later, wait)` — the closure's
own pending timer (if any) is cancelled and a single new one is armed. -/
def debouncedInvoke (wait now : Nat) (_pending : Option Nat) : Option Nat :=
  some (now + wait)

/-- The input listener body:
`this.debounce(() => this.saveFormState(formId), 500)()` builds a FRESH
debounced closure per event; its private `timeout` starts empty, so the
`clearTimeout` inside cancels nothing and the new timer simply joins the
already-armed ones.  `timers` are the firing times of armed save timers. -/
def inputEventTimers (autoSave : Bool) (now : Nat) (timers : List Nat) : List Nat :=
  if autoSave then timers ++ [now + 500] else timers

/-- A burst of change events at the given times under `autoSave`: the armed
save timers after the last event. -/
def burstTimers (times : List Nat) : List Nat :=
  times.foldl (fun ts t => inputEventTimers true t ts) []

/-- Each armed timer later fires and performs one `saveFormState` (one
persisted write): the number of persisted snapshots a burst produces. -/
def burstSaveCount (times : List Nat) : Nat :=
  (burstTimers times).length

/-! ## File-size formatter (`formatFileSize`) -/

/-- The unit table `['Bytes', 'KB', 'MB', 'GB']`. -/
def fileSizeUnits : List String := ["Bytes", "KB", "MB", "GB"]

/-- `Math.floor(Math.log(bytes) / Math.log(1024))` under exact real
semantics: the floor logarithm base 1024, computed by repeated division
with structural fuel. -/
def ilogAux : Nat → Nat → Nat
  | 0, _ => 0
  | fuel + 1, b => if b < 1024 then 0 else 1 + ilogAux fuel (b / 1024)

/-- Floor logarithm base 1024 (fuel `b` is ample). -/
def ilog1024 (b : Nat) : Nat := ilogAux b b

/-- `(bytes / Math.pow(1024, i)).toFixed(2)` as an exact integer count of
hundredths, rounded half-up (ECMAScript toFixed picks the larger tie; the
quotient is exactly representable, so the tie is exact). -/
def centiRounded (bytes i : Nat) : Nat :=
  (200 * bytes + 1024 ^ i) / (2 * 1024 ^ i)

/-- `parseFloat` of the fixed form drops trailing fraction zeros: integer
values render bare, one trailing zero renders a single decimal digit,
otherwise both digits show. -/
def renderCenti (n : Nat) : String :=
  if n % 100 = 0 then toString (n / 100)
  else if n % 10 = 0 then toString (n / 100) ++ "." ++ toString ((n / 10) % 10)
  else toString (n / 100) ++ "." ++ toString ((n % 100) / 10) ++ toString (n % 10)

/-- `formatFileSize(bytes)`: the zero guard, else
`parseFloat((bytes / Math.pow(k, i)).toFixed(2)) + ' ' + sizes[i]` —
`sizes[i]` past the table renders as "undefined". -/
def formatFileSize (bytes : Nat) : String :=
  if bytes = 0 then "0 Bytes"
  else
    renderCenti (centiRounded bytes (ilog1024 bytes)) ++ " " ++
      (fileSizeUnits.getD (ilog1024 bytes) "undefined")

/-- The claim's rendering, literally: ALWAYS two decimal places. -/
def render2dp (n : Nat) : String :=
  toString (n / 100) ++ "." ++ toString ((n % 100) / 10) ++ toString (n % 10)

/-- The file-size text exactly as the spec sentence words it: numeric part
`size / 1024^order` with `order = floor(log1024 size)` (the mathematical
floor logarithm, `Nat.log 1024`), rendered with 2 decimal places, units
`B/KB/MB/GB`. -/
def specFileSize (bytes : Nat) : String :=
  render2dp (centiRounded bytes (Nat.log 1024 bytes)) ++ " " ++
    (["B", "KB", "MB", "GB"].getD (Nat.log 1024 bytes) "")

/-- The amended rendering target: units `Bytes/KB/MB/GB`, value rounded to
two decimals with trailing zeros dropped, order the mathematical floor
logarithm, defined for orders the four-entry unit table covers. -/
def amendedFileSize (bytes : Nat) : String :=
  renderCenti (centiRounded bytes (Nat.log 1024 bytes)) ++ " " ++
    (["Bytes", "KB", "MB", "GB"].getD (Nat.log 1024 bytes) "")

/-! ## Derived notions used by the verification -/

/-- The key list of a state object. -/
def keysOf (l : List (String × StateVal)) : List String := l.map Prod.fst

/-- The controls of a form bearing a given name, in document order. -/
def bearers (f : Form) (n : String) : Form := f.filter (fun e => e.name = n)

/-- The scalar items of a stored value. -/
def itemsOf : StateVal → List SVal
  | StateVal.one v => [v]
  | StateVal.many l => l

/-- The scalar items of an optional stored value. -/
def optItems : Option StateVal → List SVal
  | some w => itemsOf w
  | none => []

/-- The values of the checked members of a list of controls, in order. -/
def checkedValues (bs : Form) : List String :=
  (bs.filter (fun b => b.checked)).map (fun b => b.value)

/-- One accumulation step of the FormData loop on the value already stored
under a key (`none` = key absent): present-and-truthy promotes/appends,
otherwise plain assignment. -/
def accStep (o : Option StateVal) (v : SVal) : StateVal :=
  match o with
  | some w => if truthy w then promote w v else StateVal.one v
  | none => StateVal.one v

/-- `accStep` viewed as a fold step over an optional slot. -/
def combineStep (o : Option StateVal) (v : SVal) : Option StateVal :=
  some (accStep o v)

/-- The value stored under one key after accumulating its FormData entries
in order. -/
def combine (vs : List SVal) : Option StateVal :=
  vs.foldl combineStep none

/-- The FormData values contributed under the name `n`, in order. -/
def entryValuesFor (n : String) (entries : List (String × SVal)) : List SVal :=
  entries.filterMap (fun kv => if kv.1 = n then some kv.2 else none)

/-- All checked radios of a form, in document order. -/
def checkedRadios (f : Form) : Form :=
  f.filter (fun e => e.etype = ElemType.radio ∧ e.checked = true)

/-- Sufficient well-formedness for the encode/decode round-trip: every
control is named and no name begins with the metadata underscore; a name
borne by two or more controls is borne only by checkboxes or only by
radios; checkbox values are non-empty and distinct within a name group, and
a name group containing an unchecked checkbox has its FIRST checkbox
unchecked (the `_unchecked` restore pass can only target the first match);
radio values are distinct within a name group with at most one checked;
multiple-select option values are non-empty and distinct.  Excluded names
need no condition: their controls are neither encoded nor touched by decode,
so on an unmodified form they round-trip trivially. -/
@[reducible] def RoundtripOK (f : Form) : Prop :=
  (∀ e ∈ f, e.name ≠ "" ∧ isMetaKey e.name = false) ∧
  (∀ e ∈ f, 2 ≤ (bearers f e.name).length →
      (∀ b ∈ bearers f e.name, b.etype = ElemType.checkbox) ∨
      (∀ b ∈ bearers f e.name, b.etype = ElemType.radio)) ∧
  (∀ e ∈ f, e.etype = ElemType.checkbox →
      e.value ≠ "" ∧ ((bearers f e.name).map Elem.value).Nodup) ∧
  (∀ e ∈ f, e.etype = ElemType.checkbox → e.checked = false →
      ((f.find? (fun b => decide (b.etype = ElemType.checkbox ∧ b.name = e.name))).all
        (fun b => !b.checked)) = true) ∧
  (∀ e ∈ f, e.etype = ElemType.radio →
      ((bearers f e.name).map Elem.value).Nodup ∧
      ((bearers f e.name).filter
        (fun b => b.etype = ElemType.radio ∧ b.checked = true)).length ≤ 1) ∧
  (∀ e ∈ f, e.etype = ElemType.selectMultiple →
      (e.options.map Prod.fst).Nodup ∧ ∀ o ∈ e.options, o.1 ≠ "")

/-- Two text inputs sharing a name (both non-empty). -/
def twoTextForm : Form :=
  [ { name := "a", etype := ElemType.text, value := "x", checked := false, options := [] }
  , { name := "a", etype := ElemType.text, value := "y", checked := false, options := [] } ]

/-- Two checkboxes sharing name and value, the first checked. -/
def twoBoxForm : Form :=
  [ { name := "c", etype := ElemType.checkbox, value := "v", checked := true, options := [] }
  , { name := "c", etype := ElemType.checkbox, value := "v", checked := false, options := [] } ]

/-- Two text inputs sharing a name, the first holding the empty string. -/
def emptyFirstForm : Form :=
  [ { name := "a", etype := ElemType.text, value := "", checked := false, options := [] }
  , { name := "a", etype := ElemType.text, value := "x", checked := false, options := [] } ]

/-- A small well-formed form: a text field, an unchecked checkbox, a checked
radio pair and a multiple select with one selected option. -/
def sampleForm : Form :=
  [ { name := "email", etype := ElemType.text, value := "a@b.com", checked := false, options := [] }
  , { name := "subscribe", etype := ElemType.checkbox, value := "yes", checked := false, options := [] }
  , { name := "lang", etype := ElemType.radio, value := "de", checked := true, options := [] }
  , { name := "lang", etype := ElemType.radio, value := "fr", checked := false, options := [] }
  , { name := "tags", etype := ElemType.selectMultiple, value := "", checked := false
    , options := [("x", true), ("y", false)] } ]

/-! ## Lemmas about the file-size formatter -/

theorem ilogAux_eq_log (fuel b : Nat) (h : b ≤ fuel) : ilogAux fuel b = Nat.log 1024 b := by
  induction fuel generalizing b with
  | zero =>
      have hb : b = 0 := Nat.le_zero.mp h
      subst hb
      simp [ilogAux, Nat.log_zero_right]
  | succ fuel ih =>
      by_cases hlt : b < 1024
      · simp [ilogAux, hlt, Nat.log_of_lt hlt]
      · have hb : 1024 ≤ b := Nat.not_lt.mp hlt
        have hbpos : 0 < b := lt_of_lt_of_le (by norm_num) hb
        have hdiv : b / 1024 < b := Nat.div_lt_self hbpos (by norm_num)
        have hfuel : b / 1024 ≤ fuel := by omega
        have hrec := ih (b / 1024) hfuel
        have hlog : Nat.log 1024 (b / 1024) = Nat.log 1024 b - 1 := Nat.log_div_base 1024 b
        have hpos : 0 < Nat.log 1024 b := Nat.log_pos (by norm_num) hb
        simp only [ilogAux, if_neg hlt, hrec, hlog]
        omega

theorem ilog1024_eq_log (b : Nat) : ilog1024 b = Nat.log 1024 b :=
  ilogAux_eq_log b b le_rfl

/-! ## Claim theorems: formatter, debounce, envelope, submit -/

/-! ## Lemmas about the state object -/

theorem lookup_cons_self {v : StateVal} {l : List (String × StateVal)} (k : String) :
    List.lookup k ((k, v) :: l) = some v := by
  simp [List.lookup_cons]

theorem lookup_cons_ne {v : StateVal} {l : List (String × StateVal)} {n k : String}
    (h : n ≠ k) : List.lookup n ((k, v) :: l) = List.lookup n l := by
  rw [List.lookup_cons]
  simp [beq_false_of_ne h]

theorem lookup_addEntry_self (l : List (String × StateVal)) (k : String) (v : SVal) :
    List.lookup k (addEntry l k v) = some (accStep (List.lookup k l) v) := by
  induction l with
  | nil => simp [addEntry, accStep, lookup_cons_self]
  | cons head tail ih =>
      obtain ⟨k1, w⟩ := head
      by_cases hk : k = k1
      · subst hk
        by_cases ht : truthy w <;>
          simp [addEntry, ht, lookup_cons_self, accStep]
      · simp [addEntry, hk, lookup_cons_ne hk, ih]

theorem lookup_addEntry_ne (l : List (String × StateVal)) (k : String) (v : SVal)
    {n : String} (h : n ≠ k) :
    List.lookup n (addEntry l k v) = List.lookup n l := by
  induction l with
  | nil => simp [addEntry, lookup_cons_ne h]
  | cons head tail ih =>
      obtain ⟨k1, w⟩ := head
      by_cases hk : k = k1
      · subst hk
        by_cases ht : truthy w <;>
          simp [addEntry, ht, lookup_cons_ne h]
      · by_cases hn : n = k1
        · subst hn
          simp [addEntry, hk, lookup_cons_self]
        · simp [addEntry, hk, lookup_cons_ne hn, ih]

theorem lookup_setEntry_self (l : List (String × StateVal)) (k : String) (v : StateVal) :
    List.lookup k (setEntry l k v) = some v := by
  induction l with
  | nil => simp [setEntry, lookup_cons_self]
  | cons head tail ih =>
      obtain ⟨k1, w⟩ := head
      by_cases hk : k = k1
      · subst hk
        simp [setEntry, lookup_cons_self]
      · simp [setEntry, hk, lookup_cons_ne hk, ih]

theorem lookup_setEntry_ne (l : List (String × StateVal)) (k : String) (v : StateVal)
    {n : String} (h : n ≠ k) :
    List.lookup n (setEntry l k v) = List.lookup n l := by
  induction l with
  | nil => simp [setEntry, lookup_cons_ne h]
  | cons head tail ih =>
      obtain ⟨k1, w⟩ := head
      by_cases hk : k = k1
      · subst hk
        simp [setEntry, lookup_cons_ne h]
      · by_cases hn : n = k1
        · subst hn
          simp [setEntry, hk, lookup_cons_self]
        · simp [setEntry, hk, lookup_cons_ne hn, ih]

theorem keysOf_addEntry (l : List (String × StateVal)) (k : String) (v : SVal) :
    keysOf (addEntry l k v)
      = if k ∈ keysOf l then keysOf l else keysOf l ++ [k] := by
  induction l with
  | nil => simp [addEntry, keysOf]
  | cons head tail ih =>
      obtain ⟨k1, w⟩ := head
      by_cases hk : k = k1
      · subst hk
        by_cases ht : truthy w <;> simp [addEntry, ht, keysOf]
      · simp only [keysOf] at ih ⊢
        simp [addEntry, hk, ih]
        by_cases hin : k ∈ List.map Prod.fst tail <;> simp [hin, hk]

theorem keysOf_setEntry (l : List (String × StateVal)) (k : String) (v : StateVal) :
    keysOf (setEntry l k v)
      = if k ∈ keysOf l then keysOf l else keysOf l ++ [k] := by
  induction l with
  | nil => simp [setEntry, keysOf]
  | cons head tail ih =>
      obtain ⟨k1, w⟩ := head
      by_cases hk : k = k1
      · subst hk
        simp [setEntry, keysOf]
      · simp only [keysOf] at ih ⊢
        simp [setEntry, hk, ih]
        by_cases hin : k ∈ List.map Prod.fst tail <;> simp [hin, hk]

theorem keysOf_addEntry_nodup {l : List (String × StateVal)} (k : String) (v : SVal)
    (h : (keysOf l).Nodup) : (keysOf (addEntry l k v)).Nodup := by
  rw [keysOf_addEntry]
  by_cases hin : k ∈ keysOf l
  · simpa [hin] using h
  · simp only [hin, if_false]
    simp [List.nodup_append, h, hin]

theorem keysOf_setEntry_nodup {l : List (String × StateVal)} (k : String) (v : StateVal)
    (h : (keysOf l).Nodup) : (keysOf (setEntry l k v)).Nodup := by
  rw [keysOf_setEntry]
  by_cases hin : k ∈ keysOf l
  · simpa [hin] using h
  · simp only [hin, if_false]
    simp [List.nodup_append, h, hin]

theorem mem_keysOf_addEntry {l : List (String × StateVal)} {k n : String} {v : SVal}
    (h : n ∈ keysOf (addEntry l k v)) : n ∈ keysOf l ∨ n = k := by
  rw [keysOf_addEntry] at h
  by_cases hin : k ∈ keysOf l
  · simp [hin] at h
    exact Or.inl h
  · simp [hin] at h
    exact h

theorem mem_keysOf_setEntry {l : List (String × StateVal)} {k n : String} {v : StateVal}
    (h : n ∈ keysOf (setEntry l k v)) : n ∈ keysOf l ∨ n = k := by
  rw [keysOf_setEntry] at h
  by_cases hin : k ∈ keysOf l
  · simp [hin] at h
    exact Or.inl h
  · simp [hin] at h
    exact h

/-- C10: the file-size formatter is total at zero: `formatFileSize(0)` is the
fixed string "0 Bytes" (the zero guard fires before the undefined
logarithm). -/
theorem formatFileSize_zero : formatFileSize 0 = "0 Bytes" := rfl

/-- C9 counterexample: at size 500 the code renders "500 Bytes", while the
claim's literal rendering (unit "B", two forced decimal places) is
"500.00 B" — the claim fails as stated. -/
theorem formatFileSize_spec_cex :
    formatFileSize 500 = "500 Bytes" ∧
    specFileSize 500 = "500.00 B" ∧
    formatFileSize 500 ≠ specFileSize 500 := by
  have h : Nat.log 1024 500 = 0 := Nat.log_of_lt (by norm_num)
  have h2 : specFileSize 500 = "500.00 B" := by
    simp only [specFileSize, h, render2dp, centiRounded]
    rfl
  refine ⟨rfl, h2, ?_⟩
  rw [h2]
  decide

/-- C9 amended: for every positive size whose order fits the four-entry unit
table (order ≤ 3, i.e. size < 1024⁴), the rendered text is the value
`size / 1024^order`, `order = floor(log1024 size)` (the mathematical floor
logarithm), rounded to 2 decimal places with trailing fraction zeros
dropped, with unit drawn from Bytes/KB/MB/GB. -/
theorem formatFileSize_amended (bytes : Nat) (h1 : 1 ≤ bytes)
    (h2 : Nat.log 1024 bytes ≤ 3) :
    formatFileSize bytes = amendedFileSize bytes := by
  have hb : ¬ bytes = 0 := by omega
  unfold formatFileSize amendedFileSize
  rw [if_neg hb, ilog1024_eq_log]
  congr 1
  interval_cases h : Nat.log 1024 bytes <;> rfl

theorem formatFileSize_amended_witness :
    (1 ≤ 1536 ∧ Nat.log 1024 1536 ≤ 3) ∧
    formatFileSize 1536 = amendedFileSize 1536 := by
  have h : Nat.log 1024 1536 = 1 :=
    Nat.log_eq_of_pow_le_of_lt_pow (by norm_num) (by norm_num)
  exact ⟨⟨by norm_num, by simp [h]⟩,
    formatFileSize_amended 1536 (by norm_num) (by simp [h])⟩

/-- C2 (code bug): two change events 100ms apart — each event builds a fresh
debounced closure and invokes it once, so nothing is cancelled and TWO save
timers are armed (two persisted snapshots), not one.  By contrast a single
reused debounced closure (the `debounce` helper's actual semantics) folded
over the same burst holds exactly one pending timer, at 100 + 500. -/
theorem debounce_burst_not_coalesced :
    burstSaveCount [0, 100] = 2 ∧
    List.foldl (fun p t => debouncedInvoke 500 t p) none [0, 100] = some 600 :=
  ⟨rfl, rfl⟩

/-- C3: a stored envelope older than 24h (now - timestamp > maxAge) is not
applied and is removed from storage by the restore attempt; an envelope with
now - timestamp ≤ 24h is applied and kept. -/
theorem stale_envelope_purged_fresh_applied (now ts : Int) (st : FormState) (f : Form) :
    (now - ts > maxAgeMs →
      restoreFormState now (some (Stored.payload st ts)) f = (none, f)) ∧
    (now - ts ≤ maxAgeMs →
      restoreFormState now (some (Stored.payload st ts)) f
        = (some (Stored.payload st ts), applyFormState f st)) := by
  constructor
  · intro h
    simp [restoreFormState, h]
  · intro h
    simp [restoreFormState, not_lt.mpr h]

theorem stale_envelope_purged_fresh_applied_witness :
    ((86400001 : Int) - 0 > maxAgeMs ∧
      restoreFormState 86400001 (some (Stored.payload ⟨[], []⟩ 0)) [] = (none, [])) ∧
    ((86400000 : Int) - 0 ≤ maxAgeMs ∧
      restoreFormState 86400000 (some (Stored.payload ⟨[], []⟩ 0)) []
        = (some (Stored.payload ⟨[], []⟩ 0), applyFormState [] ⟨[], []⟩)) :=
  ⟨⟨by decide, (stale_envelope_purged_fresh_applied 86400001 0 ⟨[], []⟩ []).1 (by decide)⟩,
   ⟨by decide, (stale_envelope_purged_fresh_applied 86400000 0 ⟨[], []⟩ []).2 (by decide)⟩⟩

/-- C7 counterexample: a malformed stored entry is NOT removed by the restore
attempt — the catch block only logs, so the entry survives the read,
contradicting the claim's "storage entry removed". -/
theorem malformed_entry_removed_cex :
    restoreFormState 0 (some Stored.malformedJson) [] = (some Stored.malformedJson, []) ∧
    restoreFormState 0 (some Stored.malformedJson) [] ≠ ((none : Option Stored), ([] : Form)) :=
  ⟨rfl, by decide⟩

/-- C7 amended: a stored entry whose JSON fails to parse is treated as absent
state (nothing is applied to the form), but the storage entry is retained,
not removed. -/
theorem malformed_entry_kept (now : Int) (f : Form) :
    restoreFormState now (some Stored.malformedJson) f = (some Stored.malformedJson, f) :=
  rfl

/-- C8 counterexample: at the deferred check the form is no longer found on
the page, but the registry no longer holds its id either (swup's
`contentReplaced` cleared and rebuilt `this.forms` inside the 1000ms
window) — `clearFormState` returns at its registry guard and the persisted
entry is RETAINED, where the claim says it is removed. -/
theorem submit_deferred_check_cex :
    submitDeferredCheck false false (some (Stored.payload ⟨[], []⟩ 0))
      = some (Stored.payload ⟨[], []⟩ 0) ∧
    submitDeferredCheck false false (some (Stored.payload ⟨[], []⟩ 0))
      ≠ (none : Option Stored) :=
  ⟨rfl, by decide⟩

/-- C8 amended: under the default `clearOnSubmit = true`, the submit handler
leaves storage untouched and schedules the deferred check after 1000ms; the
check retains the entry whenever the form is still found on the page, and
when it is not found it removes the entry only if the form's id is still in
the registry — if the registry entry is gone (the registry is cleared and
rebuilt on a swup navigation), `clearFormState` returns early and the entry
is retained unchanged. -/
theorem submit_deferred_check_amended (storage : Option Stored) :
    handleFormSubmit true storage
      = { storageAfterSubmit := storage, scheduledCheckDelay := some 1000 } ∧
    submitDeferredCheck true true storage = storage ∧
    submitDeferredCheck true false storage = storage ∧
    submitDeferredCheck false true storage = none ∧
    submitDeferredCheck false false storage = storage :=
  ⟨rfl, rfl, rfl, rfl, rfl⟩

/-! ## Lemmas about the decode passes -/

theorem restoreElem_name (k : String) (v : StateVal) (e : Elem) :
    (restoreElem k v e).name = e.name := by
  obtain ⟨n, t, ev, c, o⟩ := e
  by_cases h : n = k
  · cases t <;> simp [restoreElem, h]
  · simp [restoreElem, h]

theorem restoreElem_of_ne {k : String} {v : StateVal} {e : Elem} (h : e.name ≠ k) :
    restoreElem k v e = e := by
  simp [restoreElem, h]

theorem foldl_restoreElem_of_ne (l : List (String × StateVal)) (e : Elem)
    (h : ∀ kv ∈ l, kv.1 ≠ e.name) :
    l.foldl (fun e kv => restoreElem kv.1 kv.2 e) e = e := by
  induction l with
  | nil => rfl
  | cons kv tail ih =>
      have h1 : e.name ≠ kv.1 := fun hc => h kv (by simp) hc.symm
      simp only [List.foldl_cons, restoreElem_of_ne h1]
      exact ih (fun kv2 hm => h kv2 (by simp [hm]))

theorem foldl_restoreField_eq_map (l : List (String × StateVal)) (f : Form) :
    l.foldl (fun g kv => restoreField g kv.1 kv.2) f
      = f.map (fun e => l.foldl (fun e kv => restoreElem kv.1 kv.2 e) e) := by
  induction l generalizing f with
  | nil => simp
  | cons kv tail ih =>
      simp only [List.foldl_cons]
      rw [ih]
      simp only [restoreField, List.map_map]
      rfl

theorem foldl_restoreElem_lookup (l : List (String × StateVal))
    (hnd : (keysOf l).Nodup) (e : Elem) :
    l.foldl (fun e kv => restoreElem kv.1 kv.2 e) e
      = match List.lookup e.name l with
        | some v => restoreElem e.name v e
        | none => e := by
  induction l with
  | nil => rfl
  | cons kv tail ih =>
      obtain ⟨k, v⟩ := kv
      simp only [keysOf, List.map_cons, List.nodup_cons] at hnd
      by_cases hk : e.name = k
      · subst hk
        rw [lookup_cons_self]
        simp only [List.foldl_cons]
        apply foldl_restoreElem_of_ne
        intro kv2 hm hc
        exact hnd.1 (by
          rw [restoreElem_name] at hc
          rw [← hc]
          exact List.mem_map_of_mem Prod.fst hm)
      · rw [lookup_cons_ne hk]
        simp only [List.foldl_cons, restoreElem_of_ne hk]
        exact ih hnd.2

theorem uncheckFirst_length (g : Form) (n : String) :
    (uncheckFirst g n).length = g.length := by
  induction g with
  | nil => rfl
  | cons e es ih =>
      by_cases h : e.etype = ElemType.checkbox ∧ e.name = n <;>
        simp [uncheckFirst, h, ih]

theorem getElem_uncheckFirst_of_name_ne (g : Form) (n : String) (i : Nat)
    (hi : i < g.length) (hj : i < (uncheckFirst g n).length)
    (h : g[i].name ≠ n) :
    (uncheckFirst g n)[i] = g[i] := by
  induction g generalizing i with
  | nil => exact absurd hi (by simp)
  | cons e es ih =>
      by_cases hp : e.etype = ElemType.checkbox ∧ e.name = n
      · cases i with
        | zero =>
            exact absurd hp.2 (by simpa using h)
        | succ i =>
            have hj2 : i < es.length := by
              have := hj
              rw [uncheckFirst_length] at this
              simpa using this
            simp only [uncheckFirst, if_pos hp, List.getElem_cons_succ]
      · cases i with
        | zero =>
            simp [uncheckFirst, hp]
        | succ i =>
            have hi2 : i < es.length := by simpa using hi
            have hj2 : i < (uncheckFirst es n).length := by
              rw [uncheckFirst_length]
              exact hi2
            simp only [uncheckFirst, if_neg hp, List.getElem_cons_succ]
            exact ih i hi2 hj2 (by simpa using h)

theorem getElem_uncheckFirst_checked_false (g : Form) (n : String) (i : Nat)
    (hi : i < g.length) (hj : i < (uncheckFirst g n).length)
    (h : g[i].checked = false) :
    (uncheckFirst g n)[i].checked = false := by
  induction g generalizing i with
  | nil => exact absurd hi (by simp)
  | cons e es ih =>
      by_cases hp : e.etype = ElemType.checkbox ∧ e.name = n
      · cases i with
        | zero => simp [uncheckFirst, hp]
        | succ i =>
            simp only [uncheckFirst, if_pos hp, List.getElem_cons_succ]
            simpa using h
      · cases i with
        | zero => simpa [uncheckFirst, hp] using h
        | succ i =>
            have hi2 : i < es.length := by simpa using hi
            have hj2 : i < (uncheckFirst es n).length := by
              rw [uncheckFirst_length]
              exact hi2
            simp only [uncheckFirst, if_neg hp, List.getElem_cons_succ]
            exact ih i hi2 hj2 (by simpa using h)

theorem foldl_uncheckFirst_length (l : List String) (g : Form) :
    (l.foldl uncheckFirst g).length = g.length := by
  induction l generalizing g with
  | nil => rfl
  | cons n tail ih =>
      simp only [List.foldl_cons]
      rw [ih, uncheckFirst_length]

theorem getElem_foldl_uncheckFirst_checked_false (l : List String) (g : Form) (i : Nat)
    (hi : i < g.length) (hj : i < (l.foldl uncheckFirst g).length)
    (h : g[i].checked = false) :
    (l.foldl uncheckFirst g)[i].checked = false := by
  induction l generalizing g with
  | nil => exact h
  | cons n tail ih =>
      have hi2 : i < (uncheckFirst g n).length := by rwa [uncheckFirst_length]
      simp only [List.foldl_cons]
      exact ih (uncheckFirst g n) hi2
        (by simpa only [List.foldl_cons] using hj)
        (getElem_uncheckFirst_checked_false g n i hi hi2 h)

theorem getElem_foldl_uncheckFirst_of_name_ne (l : List String) (g : Form) (i : Nat)
    (hi : i < g.length) (hj : i < (l.foldl uncheckFirst g).length)
    (h : ∀ m ∈ l, g[i].name ≠ m) :
    (l.foldl uncheckFirst g)[i] = g[i] := by
  induction l generalizing g with
  | nil => rfl
  | cons n tail ih =>
      have hi2 : i < (uncheckFirst g n).length := by rwa [uncheckFirst_length]
      have hstep : (uncheckFirst g n)[i] = g[i] :=
        getElem_uncheckFirst_of_name_ne g n i hi hi2 (h n (by simp))
      simp only [List.foldl_cons]
      rw [ih (uncheckFirst g n) hi2 (by simpa only [List.foldl_cons] using hj)]
      · exact hstep
      · intro m hm
        rw [hstep]
        exact h m (by simp [hm])

theorem elem_set_checked_eta (e : Elem) (h : e.checked = false) :
    { e with checked := false } = e := by
  obtain ⟨n, t, v, c, o⟩ := e
  simp only at h
  rw [h]

theorem uncheckFirst_eq_self (g : Form) (n : String)
    (h : ∀ b ∈ g.find? (fun b => decide (b.etype = ElemType.checkbox ∧ b.name = n)),
      b.checked = false) :
    uncheckFirst g n = g := by
  induction g with
  | nil => rfl
  | cons e es ih =>
      by_cases hp : e.etype = ElemType.checkbox ∧ e.name = n
      · have hfind : List.find?
            (fun b => decide (b.etype = ElemType.checkbox ∧ b.name = n)) (e :: es)
            = some e := by
          rw [List.find?_cons]
          simp [hp]
        have hc : e.checked = false := h e (by rw [hfind]; rfl)
        have heq : uncheckFirst (e :: es) n = { e with checked := false } :: es := by
          simp [uncheckFirst, hp]
        rw [heq, elem_set_checked_eta e hc]
      · have hfind : List.find?
            (fun b => decide (b.etype = ElemType.checkbox ∧ b.name = n)) (e :: es)
            = List.find? (fun b => decide (b.etype = ElemType.checkbox ∧ b.name = n)) es := by
          rw [List.find?_cons]
          simp [hp]
        simp only [uncheckFirst, if_neg hp]
        rw [ih (by rw [← hfind]; exact h)]

theorem foldl_uncheckFirst_eq_self (l : List String) (g : Form)
    (h : ∀ n ∈ l, uncheckFirst g n = g) : l.foldl uncheckFirst g = g := by
  induction l with
  | nil => rfl
  | cons n tail ih =>
      simp only [List.foldl_cons, h n (by simp)]
      exact ih (fun m hm => h m (by simp [hm]))

/-! ## Characterizing the encoded fields -/

theorem elemValues_key (e : Elem) {kv : String × SVal} (h : kv ∈ elemEntries e) :
    kv.1 = e.name := by
  unfold elemEntries at h
  obtain ⟨v, hv, rfl⟩ := List.mem_map.mp h
  rfl

theorem entryValuesFor_append (n : String) (l1 l2 : List (String × SVal)) :
    entryValuesFor n (l1 ++ l2) = entryValuesFor n l1 ++ entryValuesFor n l2 := by
  simp [entryValuesFor, List.filterMap_append]

theorem entryValuesFor_elemEntries (n : String) (e : Elem) :
    entryValuesFor n (elemEntries e) = if e.name = n then elemValues e else [] := by
  unfold entryValuesFor elemEntries
  rw [List.filterMap_map]
  by_cases h : e.name = n
  · simp [h, Function.comp_def]
  · simp [h, Function.comp_def]

theorem entryValuesFor_formData (f : Form) (n : String) :
    entryValuesFor n (formDataEntries f) = (bearers f n).flatMap elemValues := by
  induction f with
  | nil => rfl
  | cons e rest ih =>
      have h1 : formDataEntries (e :: rest) = elemEntries e ++ formDataEntries rest := by
        simp [formDataEntries]
      rw [h1, entryValuesFor_append, entryValuesFor_elemEntries, ih]
      by_cases h : e.name = n
      · simp [bearers, List.filter_cons, h, List.flatMap_cons]
      · simp [bearers, List.filter_cons, h]

theorem combine_append_singleton (vs : List SVal) (v : SVal) :
    combine (vs ++ [v]) = combineStep (combine vs) v := by
  simp [combine, List.foldl_append]

theorem lookup_accumFields (ex : List String) (entries : List (String × SVal)) (n : String) :
    List.lookup n (accumFields ex entries)
      = if n ∈ ex then none else combine (entryValuesFor n entries) := by
  induction entries using List.reverseRecOn with
  | nil =>
      simp [accumFields, entryValuesFor, combine]
  | append_singleton entries kv ih =>
      have hstep : accumFields ex (entries ++ [kv])
          = (if kv.1 ∈ ex then accumFields ex entries
             else addEntry (accumFields ex entries) kv.1 kv.2) := by
        simp [accumFields, List.foldl_append]
      have hvals : entryValuesFor n (entries ++ [kv])
          = entryValuesFor n entries ++ (if kv.1 = n then [kv.2] else []) := by
        simp [entryValuesFor, List.filterMap_append]
        by_cases h : kv.1 = n <;> simp [h]
      rw [hstep, hvals]
      by_cases hex : kv.1 ∈ ex
      · rw [if_pos hex, ih]
        by_cases hn : n ∈ ex
        · simp [hn]
        · have hne : kv.1 ≠ n := fun hc => hn (hc ▸ hex)
          simp [hn, hne]
      · rw [if_neg hex]
        by_cases hn : n ∈ ex
        · have hne : n ≠ kv.1 := fun hc => hex (hc ▸ hn)
          rw [lookup_addEntry_ne _ _ _ hne, ih, if_pos hn, if_pos hn]
        · by_cases hk : kv.1 = n
          · subst hk
            rw [lookup_addEntry_self, ih, if_neg hn, if_neg hn]
            simp [combine_append_singleton, combineStep]
          · have hne : n ≠ kv.1 := fun hc => hk hc.symm
            rw [lookup_addEntry_ne _ _ _ hne, ih, if_neg hn, if_neg hn]
            simp [hk]

theorem lookup_radioFold (ex : List String) (rs : Form)
    (st : List (String × StateVal)) (n : String) :
    List.lookup n (rs.foldl (fun st e =>
        if e.name ∈ ex then st
        else setEntry st e.name (StateVal.one (SVal.s e.value))) st)
      = if n ∈ ex then List.lookup n st
        else match (rs.filter (fun e => e.name = n)).getLast? with
          | some r => some (StateVal.one (SVal.s r.value))
          | none => List.lookup n st := by
  induction rs using List.reverseRecOn with
  | nil =>
      simp
  | append_singleton rs r ih =>
      rw [List.foldl_append]
      simp only [List.foldl_cons, List.foldl_nil]
      have hfil : (rs ++ [r]).filter (fun e => e.name = n)
          = rs.filter (fun e => e.name = n)
            ++ (if r.name = n then [r] else []) := by
        rw [List.filter_append]
        by_cases h : r.name = n <;> simp [List.filter_cons, h]
      rw [hfil]
      by_cases hex : r.name ∈ ex
      · rw [if_pos hex, ih]
        by_cases hn : n ∈ ex
        · simp [hn]
        · have hne : r.name ≠ n := fun hc => hn (hc ▸ hex)
          simp [hn, hne]
      · rw [if_neg hex]
        by_cases hn : n ∈ ex
        · have hne : n ≠ r.name := fun hc => hex (hc ▸ hn)
          rw [lookup_setEntry_ne _ _ _ hne, ih, if_pos hn, if_pos hn]
        · by_cases hk : r.name = n
          · subst hk
            rw [lookup_setEntry_self, if_neg hn]
            simp [List.getLast?_concat]
          · have hne : n ≠ r.name := fun hc => hk hc.symm
            rw [lookup_setEntry_ne _ _ _ hne, ih, if_neg hn, if_neg hn]
            simp [hk]

theorem lookup_extract_fields (ex : List String) (f : Form) (n : String) :
    List.lookup n (extractFormState ex f).fields
      = if n ∈ ex then none
        else match ((checkedRadios f).filter (fun e => e.name = n)).getLast? with
          | some r => some (StateVal.one (SVal.s r.value))
          | none => combine ((bearers f n).flatMap elemValues) := by
  have h1 : (extractFormState ex f).fields
      = (checkedRadios f).foldl (fun st e =>
          if e.name ∈ ex then st
          else setEntry st e.name (StateVal.one (SVal.s e.value)))
          (accumFields ex (formDataEntries f)) := rfl
  rw [h1, lookup_radioFold, lookup_accumFields, entryValuesFor_formData]
  by_cases hn : n ∈ ex
  · simp [hn]
  · simp only [if_neg hn]

/-! ## Lemmas about value accumulation -/

theorem foldl_combineStep_many (rest : List SVal) (l : List SVal) :
    rest.foldl combineStep (some (StateVal.many l)) = some (StateVal.many (l ++ rest)) := by
  induction rest generalizing l with
  | nil => simp
  | cons v rest ih =>
      have h1 : combineStep (some (StateVal.many l)) v
          = some (StateVal.many (l ++ [v])) := rfl
      simp only [List.foldl_cons, h1, ih]
      simp

theorem combine_cons_of_truthy (v : SVal) (rest : List SVal)
    (h : truthy (StateVal.one v) = true) (hne : rest ≠ []) :
    combine (v :: rest) = some (StateVal.many (v :: rest)) := by
  cases rest with
  | nil => exact absurd rfl hne
  | cons v2 rest2 =>
      have h1 : combine (v :: v2 :: rest2)
          = rest2.foldl combineStep (combineStep (combineStep none v) v2) := rfl
      have h2 : combineStep (combineStep none v) v2
          = some (StateVal.many [v, v2]) := by
        simp [combineStep, accStep, h, promote]
      rw [h1, h2, foldl_combineStep_many]
      rfl

theorem combine_items (v : SVal) (rest : List SVal)
    (h : rest = [] ∨ truthy (StateVal.one v) = true) :
    ∃ w, combine (v :: rest) = some w ∧ itemsOf w = v :: rest := by
  by_cases hne : rest = []
  · subst hne
    exact ⟨StateVal.one v, rfl, rfl⟩
  · rcases h with h | h
    · exact absurd h hne
    · exact ⟨StateVal.many (v :: rest), combine_cons_of_truthy v rest h hne, rfl⟩

theorem itemsOf_accStep (o : Option StateVal) (v : SVal) :
    ∀ x ∈ itemsOf (accStep o v), x ∈ optItems o ++ [v] := by
  intro x hx
  match o with
  | none =>
      have h1 : x = v := by simpa [accStep, itemsOf] using hx
      simp [h1]
  | some w0 =>
      by_cases ht : truthy w0
      · simp only [accStep, if_pos ht] at hx
        match w0 with
        | StateVal.one u => simpa [promote, itemsOf, optItems] using hx
        | StateVal.many l => simpa [promote, itemsOf, optItems] using hx
      · simp only [accStep, if_neg ht, itemsOf, List.mem_singleton] at hx
        simp [hx]

theorem mem_of_foldl_combineStep (vs : List SVal) (o : Option StateVal) (w : StateVal)
    (h : vs.foldl combineStep o = some w) :
    ∀ x ∈ itemsOf w, x ∈ optItems o ++ vs := by
  induction vs generalizing o with
  | nil =>
      intro x hx
      cases o with
      | none => simp [combineStep] at h
      | some w0 =>
          simp only [List.foldl_nil, Option.some.injEq] at h
          subst h
          simpa [optItems] using hx
  | cons v rest ih =>
      intro x hx
      have h2 := ih (combineStep o v) (by simpa using h) x hx
      have h3 : optItems (combineStep o v) = itemsOf (accStep o v) := rfl
      rw [h3] at h2
      rcases List.mem_append.mp h2 with h4 | h4
      · have h5 := itemsOf_accStep o v x h4
        rcases List.mem_append.mp h5 with h6 | h6
        · exact List.mem_append.mpr (Or.inl h6)
        · simp only [List.mem_singleton] at h6
          subst h6
          simp
      · exact List.mem_append.mpr (Or.inr (by simp [h4]))

theorem mem_of_combine (vs : List SVal) (w : StateVal)
    (h : combine vs = some w) : ∀ x ∈ itemsOf w, x ∈ vs := by
  intro x hx
  have h2 := mem_of_foldl_combineStep vs none w h x hx
  simpa [optItems] using h2

/-! ## Bridging the restore branches with membership -/

theorem checkboxChecked_eq_contains (w : StateVal) (ev : String) :
    checkboxChecked w ev = (itemsOf w).contains (SVal.s ev) := by
  cases w with
  | many l => rfl
  | one u =>
      show (decide (u = SVal.s ev)) = List.elem (SVal.s ev) [u]
      simp [List.elem_cons, eq_comm]

theorem optionSelected_eq_contains (w : StateVal) (ov : String) :
    optionSelected w ov = (itemsOf w).contains (SVal.s ov) := by
  cases w with
  | many l => rfl
  | one u =>
      show (decide (u = SVal.s ov)) = List.elem (SVal.s ov) [u]
      simp [List.elem_cons, eq_comm]

theorem contains_map_s (l : List String) (x : String) :
    (l.map SVal.s).contains (SVal.s x) = l.contains x := by
  induction l with
  | nil => rfl
  | cons a t ih =>
      show List.elem (SVal.s x) (SVal.s a :: t.map SVal.s) = List.elem x (a :: t)
      rw [List.elem_cons, List.elem_cons]
      by_cases h : x = a
      · subst h
        simp
      · have h1 : (SVal.s x == SVal.s a) = false := by
          simp [h]
        have h2 : (x == a) = false := by
          simp [h]
        rw [h1, h2]
        exact ih

/-! ## Group-level value lemmas -/

theorem flatMap_elemValues_group (l : Form)
    (h : ∀ b ∈ l, (b.etype = ElemType.checkbox ∨ b.etype = ElemType.radio) ∧ b.name ≠ "") :
    l.flatMap elemValues = (checkedValues l).map SVal.s := by
  induction l with
  | nil => rfl
  | cons b t ih =>
      have hb := h b (by simp)
      have hv : elemValues b = if b.checked then [SVal.s b.value] else [] := by
        rcases hb.1 with h1 | h1 <;> simp [elemValues, hb.2, h1]
      have ih2 := ih (fun b2 hm => h b2 (by simp [hm]))
      rw [List.flatMap_cons, hv]
      unfold checkedValues at ih2 ⊢
      rw [List.filter_cons]
      by_cases hc : b.checked = true
      · simp only [hc, if_pos, List.map_cons]
        simp [ih2]
      · simp only [hc]
        simp [hc, ih2]

theorem mem_checkedValues (bs : Form) (e : Elem) (he : e ∈ bs)
    (hnd : (bs.map Elem.value).Nodup) :
    (checkedValues bs).contains e.value = e.checked := by
  cases hc : e.checked
  · by_contra hcon
    have h1 : (checkedValues bs).contains e.value = true := by
      cases h2 : (checkedValues bs).contains e.value
      · exact absurd (hc ▸ h2) hcon
      · rfl
    have h2 : e.value ∈ checkedValues bs := List.elem_iff.mp h1
    unfold checkedValues at h2
    obtain ⟨b, hbmem, hbv⟩ := List.mem_map.mp h2
    have hbf : b ∈ bs := (List.mem_filter.mp hbmem).1
    have hbc : b.checked = true := by
      simpa using (List.mem_filter.mp hbmem).2
    have hbe : b = e := List.inj_on_of_nodup_map hnd hbf he hbv
    rw [hbe] at hbc
    exact absurd (hc ▸ hbc) (by simp)
  · have h1 : e.value ∈ checkedValues bs := by
      unfold checkedValues
      exact List.mem_map_of_mem _ (List.mem_filter.mpr ⟨he, by simp [hc]⟩)
    exact List.elem_iff.mpr h1

/-! ## Keys of the encoded fields -/

theorem keysOf_accumFields_nodup (ex : List String) (entries : List (String × SVal)) :
    (keysOf (accumFields ex entries)).Nodup := by
  have haux : ∀ st : List (String × StateVal), (keysOf st).Nodup →
      (keysOf (entries.foldl
        (fun st kv => if kv.1 ∈ ex then st else addEntry st kv.1 kv.2) st)).Nodup := by
    induction entries with
    | nil => intro st h; exact h
    | cons kv tail ih =>
        intro st h
        simp only [List.foldl_cons]
        by_cases hex : kv.1 ∈ ex
        · rw [if_pos hex]
          exact ih st h
        · rw [if_neg hex]
          exact ih _ (keysOf_addEntry_nodup _ _ h)
  exact haux [] (by simp [keysOf])

theorem keysOf_radioFold_nodup (ex : List String) (rs : Form)
    (st : List (String × StateVal)) (h : (keysOf st).Nodup) :
    (keysOf (rs.foldl (fun st e =>
      if e.name ∈ ex then st
      else setEntry st e.name (StateVal.one (SVal.s e.value))) st)).Nodup := by
  induction rs generalizing st with
  | nil => exact h
  | cons r tail ih =>
      simp only [List.foldl_cons]
      by_cases hex : r.name ∈ ex
      · rw [if_pos hex]
        exact ih st h
      · rw [if_neg hex]
        exact ih _ (keysOf_setEntry_nodup _ _ h)

theorem keysOf_extract_nodup (ex : List String) (f : Form) :
    (keysOf (extractFormState ex f).fields).Nodup :=
  keysOf_radioFold_nodup ex (checkedRadios f) _
    (keysOf_accumFields_nodup ex (formDataEntries f))

theorem mem_keysOf_accumFold (ex : List String) (entries : List (String × SVal))
    (st : List (String × StateVal)) {n : String}
    (h : n ∈ keysOf (entries.foldl
      (fun st kv => if kv.1 ∈ ex then st else addEntry st kv.1 kv.2) st)) :
    n ∈ keysOf st ∨ ∃ kv ∈ entries, kv.1 = n := by
  induction entries generalizing st with
  | nil => exact Or.inl h
  | cons kv tail ih =>
      simp only [List.foldl_cons] at h
      by_cases hex : kv.1 ∈ ex
      · rw [if_pos hex] at h
        rcases ih st h with h3 | ⟨kv2, hm, hk⟩
        · exact Or.inl h3
        · exact Or.inr ⟨kv2, by simp [hm], hk⟩
      · rw [if_neg hex] at h
        rcases ih _ h with h3 | ⟨kv2, hm, hk⟩
        · rcases mem_keysOf_addEntry h3 with h4 | h4
          · exact Or.inl h4
          · exact Or.inr ⟨kv, by simp, h4.symm⟩
        · exact Or.inr ⟨kv2, by simp [hm], hk⟩

theorem mem_keysOf_accumFields (ex : List String) (entries : List (String × SVal))
    {n : String} (h : n ∈ keysOf (accumFields ex entries)) :
    ∃ kv ∈ entries, kv.1 = n := by
  rcases mem_keysOf_accumFold ex entries [] h with h2 | h2
  · simp [keysOf] at h2
  · exact h2

theorem mem_keysOf_radioFold (ex : List String) (rs : Form)
    (st : List (String × StateVal)) {n : String}
    (h : n ∈ keysOf (rs.foldl (fun st e =>
      if e.name ∈ ex then st
      else setEntry st e.name (StateVal.one (SVal.s e.value))) st)) :
    n ∈ keysOf st ∨ ∃ e ∈ rs, e.name = n := by
  induction rs generalizing st with
  | nil => exact Or.inl h
  | cons r tail ih =>
      simp only [List.foldl_cons] at h
      by_cases hex : r.name ∈ ex
      · rw [if_pos hex] at h
        rcases ih st h with h2 | ⟨e, hm, he⟩
        · exact Or.inl h2
        · exact Or.inr ⟨e, by simp [hm], he⟩
      · rw [if_neg hex] at h
        rcases ih _ h with h2 | ⟨e, hm, he⟩
        · rcases mem_keysOf_setEntry h2 with h3 | h3
          · exact Or.inl h3
          · exact Or.inr ⟨r, by simp, h3.symm⟩
        · exact Or.inr ⟨e, by simp [hm], he⟩

theorem extract_key_is_name (ex : List String) (f : Form) {n : String}
    (h : n ∈ keysOf (extractFormState ex f).fields) :
    ∃ e ∈ f, e.name = n := by
  rcases mem_keysOf_radioFold ex (checkedRadios f) _ h with h2 | ⟨e, hm, he⟩
  · obtain ⟨kv, hkv, hk⟩ := mem_keysOf_accumFields ex (formDataEntries f) h2
    obtain ⟨e, hef, hke⟩ := List.mem_flatMap.mp hkv
    exact ⟨e, hef, by rw [← hk, elemValues_key e hke]⟩
  · exact ⟨e, (List.mem_filter.mp hm).1, he⟩

theorem extract_fields_no_underscore (ex : List String) (f : Form)
    (hnames : ∀ e ∈ f, isMetaKey e.name = false) :
    (extractFormState ex f).fields.filter
        (fun kv => isMetaKey kv.1 = false)
      = (extractFormState ex f).fields := by
  rw [List.filter_eq_self]
  intro kv hkv
  obtain ⟨e, hef, hen⟩ :=
    extract_key_is_name ex f (List.mem_map_of_mem Prod.fst hkv)
  simp [← hen, hnames e hef]

/-! ## Bearers -/

theorem mem_bearers_self {f : Form} {e : Elem} (he : e ∈ f) : e ∈ bearers f e.name :=
  List.mem_filter.mpr ⟨he, by simp⟩

theorem mem_of_mem_bearers {f : Form} {n : String} {b : Elem}
    (h : b ∈ bearers f n) : b ∈ f ∧ b.name = n := by
  have h2 := List.mem_filter.mp h
  exact ⟨h2.1, by simpa using h2.2⟩

theorem bearers_eq_singleton {f : Form} {e : Elem} (he : e ∈ f)
    (hlen : ¬ 2 ≤ (bearers f e.name).length) : bearers f e.name = [e] := by
  have hm : e ∈ bearers f e.name := mem_bearers_self he
  cases hb : bearers f e.name with
  | nil =>
      rw [hb] at hm
      cases hm
  | cons x xs =>
      cases xs with
      | nil =>
          rw [hb] at hm
          simp only [List.mem_singleton] at hm
          rw [hm]
      | cons y ys =>
          rw [hb] at hlen
          exact absurd (by simp) hlen

theorem checkedRadios_filter_name (f : Form) (n : String) :
    (checkedRadios f).filter (fun e => e.name = n)
      = (bearers f n).filter (fun e => e.etype = ElemType.radio ∧ e.checked = true) := by
  unfold checkedRadios bearers
  rw [List.filter_filter, List.filter_filter]
  apply List.filter_congr
  intro e hm
  exact Bool.and_comm _ _

theorem selContains (opts : List (String × Bool)) (hnd : (opts.map Prod.fst).Nodup)
    {o : String × Bool} (ho : o ∈ opts) :
    ((opts.filter (fun p => p.2)).map Prod.fst).contains o.1 = o.2 := by
  cases hc : o.2
  · by_contra hcon
    have h1 : ((opts.filter (fun p => p.2)).map Prod.fst).contains o.1 = true := by
      cases h2 : ((opts.filter (fun p => p.2)).map Prod.fst).contains o.1
      · exact absurd (hc ▸ h2) hcon
      · rfl
    have h2 : o.1 ∈ (opts.filter (fun p => p.2)).map Prod.fst := List.elem_iff.mp h1
    obtain ⟨p, hpmem, hpv⟩ := List.mem_map.mp h2
    have hpf : p ∈ opts := (List.mem_filter.mp hpmem).1
    have hpc : p.2 = true := (List.mem_filter.mp hpmem).2
    have hpe : p = o := List.inj_on_of_nodup_map hnd hpf ho hpv
    rw [hpe] at hpc
    exact absurd (hc ▸ hpc) (by simp)
  · have h1 : o.1 ∈ (opts.filter (fun p => p.2)).map Prod.fst :=
      List.mem_map_of_mem _ (List.mem_filter.mpr ⟨ho, by simp [hc]⟩)
    exact List.elem_iff.mpr h1

/-! ## Restore branches at a matching element -/

theorem restoreElem_self_text {e : Elem} (het : e.etype = ElemType.text) (v : StateVal) :
    restoreElem e.name v e = { e with value := restoreScalarString v } := by
  simp [restoreElem, het]

theorem restoreElem_self_checkbox {e : Elem} (het : e.etype = ElemType.checkbox)
    (v : StateVal) :
    restoreElem e.name v e = { e with checked := checkboxChecked v e.value } := by
  simp [restoreElem, het]

theorem restoreElem_self_radio {e : Elem} (het : e.etype = ElemType.radio) (v : StateVal) :
    restoreElem e.name v e = { e with checked := radioChecked v e.value } := by
  simp [restoreElem, het]

theorem restoreElem_self_selectMultiple {e : Elem} (het : e.etype = ElemType.selectMultiple)
    (v : StateVal) :
    restoreElem e.name v e
      = { e with options := e.options.map (fun o => (o.1, optionSelected v o.1)) } := by
  simp [restoreElem, het]

theorem restoreElem_self_file {e : Elem} (het : e.etype = ElemType.file) (v : StateVal) :
    restoreElem e.name v e = e := by
  simp [restoreElem, het]

/-- The element-level effect of the generic decode pass, under the round-trip
hypotheses: every control of the form is restored to itself. -/
theorem perElem_id (ex : List String) (f : Form) (h : RoundtripOK f)
    (e : Elem) (he : e ∈ f) :
    (match List.lookup e.name (extractFormState ex f).fields with
     | some v => restoreElem e.name v e
     | none => e) = e := by
  obtain ⟨hnames, hhomog, hcb, hcbfirst, hrd, hsm⟩ := h
  rw [lookup_extract_fields, checkedRadios_filter_name]
  by_cases hex : e.name ∈ ex
  · simp [hex]
  · rw [if_neg hex]
    have hname : e.name ≠ "" := (hnames e he).1
    cases het : e.etype with
    | text =>
        have hsing : bearers f e.name = [e] := by
          apply bearers_eq_singleton he
          intro hlen
          rcases hhomog e he hlen with hall | hall <;>
          · have h2 := hall e (mem_bearers_self he)
            rw [het] at h2
            exact absurd h2 (by decide)
        have hrad : (bearers f e.name).filter
            (fun b => b.etype = ElemType.radio ∧ b.checked = true) = [] := by
          rw [hsing]
          simp [List.filter_cons, het]
        have hflat : (bearers f e.name).flatMap elemValues = [SVal.s e.value] := by
          rw [hsing]
          simp [elemValues, hname, het]
        rw [hrad, hflat]
        show restoreElem e.name (StateVal.one (SVal.s e.value)) e = e
        rw [restoreElem_self_text het]
        exact rfl
    | file =>
        have hsing : bearers f e.name = [e] := by
          apply bearers_eq_singleton he
          intro hlen
          rcases hhomog e he hlen with hall | hall <;>
          · have h2 := hall e (mem_bearers_self he)
            rw [het] at h2
            exact absurd h2 (by decide)
        have hrad : (bearers f e.name).filter
            (fun b => b.etype = ElemType.radio ∧ b.checked = true) = [] := by
          rw [hsing]
          simp [List.filter_cons, het]
        have hflat : (bearers f e.name).flatMap elemValues = [SVal.fileStub] := by
          rw [hsing]
          simp [elemValues, hname, het]
        rw [hrad, hflat]
        show restoreElem e.name (StateVal.one SVal.fileStub) e = e
        exact restoreElem_self_file het _
    | selectMultiple =>
        have hsing : bearers f e.name = [e] := by
          apply bearers_eq_singleton he
          intro hlen
          rcases hhomog e he hlen with hall | hall <;>
          · have h2 := hall e (mem_bearers_self he)
            rw [het] at h2
            exact absurd h2 (by decide)
        have hrad : (bearers f e.name).filter
            (fun b => b.etype = ElemType.radio ∧ b.checked = true) = [] := by
          rw [hsing]
          simp [List.filter_cons, het]
        have hflat : (bearers f e.name).flatMap elemValues
            = ((e.options.filter (fun o => o.2)).map Prod.fst).map SVal.s := by
          rw [hsing]
          simp [elemValues, hname, het, List.map_map]
        rw [hrad, hflat]
        cases hselc : (e.options.filter (fun o => o.2)).map Prod.fst with
        | nil =>
            rfl
        | cons v1 vrest =>
            have hv1 : v1 ≠ "" := by
              have hm : v1 ∈ (e.options.filter (fun o => o.2)).map Prod.fst := by
                rw [hselc]
                simp
              obtain ⟨o, ho, hov⟩ := List.mem_map.mp hm
              exact hov ▸ (hsm e he het).2 o (List.mem_filter.mp ho).1
            obtain ⟨w, hw, hitems⟩ := combine_items (SVal.s v1) (vrest.map SVal.s)
              (Or.inr (by simp [truthy, hv1]))
            simp only [List.map_cons]
            rw [hw]
            show restoreElem e.name w e = e
            rw [restoreElem_self_selectMultiple het]
            have hopts : e.options.map (fun o => (o.1, optionSelected w o.1)) = e.options := by
              have hcng : ∀ o ∈ e.options, (o.1, optionSelected w o.1) = id o := by
                intro o ho
                have h1 : optionSelected w o.1 = o.2 := by
                  rw [optionSelected_eq_contains, hitems]
                  rw [show SVal.s v1 :: vrest.map SVal.s
                      = (v1 :: vrest).map SVal.s from rfl]
                  rw [contains_map_s, ← hselc]
                  exact selContains e.options (hsm e he het).1 ho
                rw [h1]
                rfl
              rw [List.map_congr_left hcng, List.map_id]
            rw [hopts]
    | checkbox =>
        have hallcb : ∀ b ∈ bearers f e.name, b.etype = ElemType.checkbox := by
          by_cases hlen : 2 ≤ (bearers f e.name).length
          · rcases hhomog e he hlen with hall | hall
            · exact hall
            · have h2 := hall e (mem_bearers_self he)
              rw [het] at h2
              exact absurd h2 (by decide)
          · intro b hb
            rw [bearers_eq_singleton he hlen] at hb
            simp only [List.mem_singleton] at hb
            rw [hb]
            exact het
        have hrad : (bearers f e.name).filter
            (fun b => b.etype = ElemType.radio ∧ b.checked = true) = [] := by
          rw [List.filter_eq_nil_iff]
          intro b hb
          have h2 := hallcb b hb
          simp [h2]
        have hflat : (bearers f e.name).flatMap elemValues
            = (checkedValues (bearers f e.name)).map SVal.s :=
          flatMap_elemValues_group _ (fun b hb =>
            ⟨Or.inl (hallcb b hb), (hnames b (mem_of_mem_bearers hb).1).1⟩)
        rw [hrad, hflat]
        cases hcv : checkedValues (bearers f e.name) with
        | nil =>
            rfl
        | cons c1 crest =>
            have hc1 : c1 ≠ "" := by
              have hm : c1 ∈ checkedValues (bearers f e.name) := by
                rw [hcv]
                simp
              unfold checkedValues at hm
              obtain ⟨b, hbm, hbv⟩ := List.mem_map.mp hm
              have hbb := (List.mem_filter.mp hbm).1
              exact hbv ▸
                (hcb b (mem_of_mem_bearers hbb).1 (hallcb b hbb)).1
            obtain ⟨w, hw, hitems⟩ := combine_items (SVal.s c1) (crest.map SVal.s)
              (Or.inr (by simp [truthy, hc1]))
            simp only [List.map_cons]
            rw [hw]
            show restoreElem e.name w e = e
            rw [restoreElem_self_checkbox het]
            have hchk : checkboxChecked w e.value = e.checked := by
              rw [checkboxChecked_eq_contains, hitems]
              rw [show SVal.s c1 :: crest.map SVal.s = (c1 :: crest).map SVal.s from rfl]
              rw [contains_map_s, ← hcv]
              exact mem_checkedValues (bearers f e.name) e (mem_bearers_self he)
                (hcb e he het).2
            rw [hchk]
    | radio =>
        have hallrd : ∀ b ∈ bearers f e.name, b.etype = ElemType.radio := by
          by_cases hlen : 2 ≤ (bearers f e.name).length
          · rcases hhomog e he hlen with hall | hall
            · have h2 := hall e (mem_bearers_self he)
              rw [het] at h2
              exact absurd h2 (by decide)
            · exact hall
          · intro b hb
            rw [bearers_eq_singleton he hlen] at hb
            simp only [List.mem_singleton] at hb
            rw [hb]
            exact het
        have hradeq : (bearers f e.name).filter
              (fun b => b.etype = ElemType.radio ∧ b.checked = true)
            = (bearers f e.name).filter (fun b => b.checked) := by
          apply List.filter_congr
          intro b hb
          have h2 := hallrd b hb
          cases hc : b.checked <;> simp [h2, hc]
        have hflat : (bearers f e.name).flatMap elemValues
            = (checkedValues (bearers f e.name)).map SVal.s :=
          flatMap_elemValues_group _ (fun b hb =>
            ⟨Or.inr (hallrd b hb), (hnames b (mem_of_mem_bearers hb).1).1⟩)
        rw [hradeq, hflat]
        have hlen1 : ((bearers f e.name).filter (fun b => b.checked)).length ≤ 1 := by
          have h2 := (hrd e he het).2
          rwa [hradeq] at h2
        cases hfc : (bearers f e.name).filter (fun b => b.checked) with
        | nil =>
            have hcv : checkedValues (bearers f e.name) = [] := by
              unfold checkedValues
              rw [hfc]
              rfl
            rw [hcv]
            rfl
        | cons r rest2 =>
            have hrest2 : rest2 = [] := by
              rw [hfc] at hlen1
              simp only [List.length_cons] at hlen1
              exact List.length_eq_zero.mp (by omega)
            subst hrest2
            have hcv : checkedValues (bearers f e.name) = [r.value] := by
              unfold checkedValues
              rw [hfc]
              rfl
            rw [hcv]
            show restoreElem e.name (StateVal.one (SVal.s r.value)) e = e
            rw [restoreElem_self_radio het]
            have hrmem : r ∈ bearers f e.name := by
              have h2 : r ∈ (bearers f e.name).filter (fun b => b.checked) := by
                rw [hfc]
                exact List.mem_singleton_self r
              exact (List.mem_filter.mp h2).1
            have hrchk : r.checked = true := by
              have h2 : r ∈ (bearers f e.name).filter (fun b => b.checked) := by
                rw [hfc]
                exact List.mem_singleton_self r
              simpa using (List.mem_filter.mp h2).2
            have hrc : radioChecked (StateVal.one (SVal.s r.value)) e.value = e.checked := by
              show (decide (SVal.s r.value = SVal.s e.value)) = e.checked
              cases hc : e.checked
              · apply decide_eq_false
                intro hcontra
                have hveq : r.value = e.value := by
                  injection hcontra
                have hre : r = e :=
                  List.inj_on_of_nodup_map (hrd e he het).1 hrmem (mem_bearers_self he) hveq
                rw [hre] at hrchk
                rw [hrchk] at hc
                cases hc
              · have hem : e ∈ (bearers f e.name).filter (fun b => b.checked) :=
                  List.mem_filter.mpr ⟨mem_bearers_self he, by simp [hc]⟩
                rw [hfc] at hem
                simp only [List.mem_singleton] at hem
                rw [hem]
                simp
            rw [hrc]

/-! ## The assembled round-trip -/

theorem applyFormState_extract_eq (ex : List String) (f : Form) (h : RoundtripOK f) :
    applyFormState f (extractFormState ex f) = f := by
  have hnames : ∀ e ∈ f, e.name ≠ "" ∧ isMetaKey e.name = false := h.1
  unfold applyFormState
  rw [extract_fields_no_underscore ex f (fun e he => (hnames e he).2)]
  rw [foldl_restoreField_eq_map]
  have hmap : ∀ e ∈ f, ((extractFormState ex f).fields).foldl
      (fun e kv => restoreElem kv.1 kv.2 e) e = e := by
    intro e he
    rw [foldl_restoreElem_lookup _ (keysOf_extract_nodup ex f) e]
    exact perElem_id ex f h e he
  have hpass1 : f.map (fun e => ((extractFormState ex f).fields).foldl
      (fun e kv => restoreElem kv.1 kv.2 e) e) = f := by
    have h2 : ∀ e ∈ f, ((extractFormState ex f).fields).foldl
        (fun e kv => restoreElem kv.1 kv.2 e) e = id e := hmap
    rw [List.map_congr_left h2, List.map_id]
  rw [hpass1]
  apply foldl_uncheckFirst_eq_self
  intro n hn
  apply uncheckFirst_eq_self
  intro b hb
  unfold uncheckedNames at hn
  obtain ⟨eu, heu, hname⟩ := List.mem_map.mp hn
  have heu2 := List.mem_filter.mp heu
  have heuf : eu ∈ f := heu2.1
  have hprops : eu.etype = ElemType.checkbox ∧ eu.name ∉ ex ∧ eu.checked = false := by
    simpa using heu2.2
  have hall := h.2.2.2.1 eu heuf hprops.1 hprops.2.2
  rw [hname] at hall
  cases hfind : f.find? (fun b => decide (b.etype = ElemType.checkbox ∧ b.name = n)) with
  | none =>
      rw [hfind] at hb
      cases hb
  | some x =>
      rw [hfind] at hb hall
      have hbx : b = x := by
        have h2 : x = b := by simpa using hb
        exact h2.symm
      have hx : (!x.checked) = true := by simpa [Option.all] using hall
      rw [hbx]
      simpa using hx

/-! ## Further lookup helpers -/

theorem lookup_eq_none_of_not_mem_keys {l : List (String × StateVal)} {n : String}
    (h : n ∉ keysOf l) : List.lookup n l = none := by
  induction l with
  | nil => rfl
  | cons kv tail ih =>
      obtain ⟨k, w⟩ := kv
      have hk : n ≠ k := by
        intro hc
        exact h (by simp [keysOf, hc])
      rw [lookup_cons_ne hk]
      exact ih (fun hc => h (by simp [keysOf] at hc ⊢; exact Or.inr hc))

theorem not_mem_keys_of_lookup_eq_none {l : List (String × StateVal)} {n : String}
    (h : List.lookup n l = none) : n ∉ keysOf l := by
  induction l with
  | nil => simp [keysOf]
  | cons kv tail ih =>
      obtain ⟨k, w⟩ := kv
      by_cases hk : n = k
      · subst hk
        rw [lookup_cons_self] at h
        cases h
      · rw [lookup_cons_ne hk] at h
        simp only [keysOf, List.map_cons, List.mem_cons]
        rintro (hc | hc)
        · exact hk hc
        · exact ih h hc

theorem lookup_filter_sub (l : List (String × StateVal)) (p : String × StateVal → Bool)
    (hnd : (keysOf l).Nodup) {n : String} {v : StateVal}
    (h : List.lookup n (l.filter p) = some v) : List.lookup n l = some v := by
  induction l with
  | nil => simp at h
  | cons kv tail ih =>
      obtain ⟨k, w⟩ := kv
      simp only [keysOf, List.map_cons, List.nodup_cons] at hnd
      by_cases hp : p (k, w)
      · rw [List.filter_cons, if_pos hp] at h
        by_cases hk : n = k
        · subst hk
          rw [lookup_cons_self] at h ⊢
          exact h
        · rw [lookup_cons_ne hk] at h ⊢
          exact ih hnd.2 h
      · rw [List.filter_cons, if_neg hp] at h
        by_cases hk : n = k
        · subst hk
          have h2 : n ∉ keysOf (tail.filter p) := by
            intro hc
            apply hnd.1
            obtain ⟨kv2, hm, hkv⟩ := List.mem_map.mp hc
            have hm2 : kv2 ∈ tail := (List.mem_filter.mp hm).1
            exact hkv ▸ List.mem_map_of_mem Prod.fst hm2
          rw [lookup_eq_none_of_not_mem_keys h2] at h
          cases h
        · rw [lookup_cons_ne hk]
          exact ih hnd.2 h

theorem keysOf_filter_nodup (l : List (String × StateVal)) (p : String × StateVal → Bool)
    (hnd : (keysOf l).Nodup) : (keysOf (l.filter p)).Nodup := by
  induction l with
  | nil => simp [keysOf]
  | cons kv tail ih =>
      simp only [keysOf, List.map_cons, List.nodup_cons] at hnd
      by_cases hp : p kv
      · rw [List.filter_cons, if_pos hp]
        simp only [keysOf, List.map_cons, List.nodup_cons]
        constructor
        · intro hc
          apply hnd.1
          obtain ⟨kv2, hm, hkv⟩ := List.mem_map.mp hc
          exact hkv ▸ List.mem_map_of_mem Prod.fst (List.mem_filter.mp hm).1
        · exact ih hnd.2
      · rw [List.filter_cons, if_neg hp]
        exact ih hnd.2

theorem flatMap_singleton_eq_map (l : Form) (g : Elem → List SVal) (u : Elem → SVal)
    (h : ∀ b ∈ l, g b = [u b]) : l.flatMap g = l.map u := by
  induction l with
  | nil => rfl
  | cons b t ih =>
      rw [List.flatMap_cons, h b (by simp), List.map_cons,
        ih (fun b2 hb => h b2 (by simp [hb]))]
      rfl

theorem applyFormState_length (f : Form) (st : FormState) :
    (applyFormState f st).length = f.length := by
  unfold applyFormState
  rw [foldl_uncheckFirst_length, foldl_restoreField_eq_map, List.length_map]

/-! ## Claim theorems: the codec -/

/-- C1 counterexample: two text inputs sharing the name "a" with values "x"
and "y" — encode yields the list ["x","y"] but decode writes the FIRST list
element into every element of the name group, so the second input comes
back as "x", not "y": the round-trip fails on an unmodified form. -/
theorem roundtrip_claim_cex :
    applyFormState twoTextForm (extractFormState defaultExcludeFields twoTextForm)
      = [ { name := "a", etype := ElemType.text, value := "x", checked := false, options := [] }
        , { name := "a", etype := ElemType.text, value := "x", checked := false, options := [] } ] ∧
    applyFormState twoTextForm (extractFormState defaultExcludeFields twoTextForm)
      ≠ twoTextForm := by
  constructor
  · decide
  · decide

/-- C1 amended: decode ∘ encode is the identity on an unmodified (or
identically rendered) form provided every control is named with no
metadata-underscore name, any name shared by several controls is borne only
by checkboxes or only by radios, checkbox values are non-empty and distinct
within a name group whose first checkbox is unchecked whenever any member
is, radio values are distinct within a name group with at most one checked,
and multiple-select option values are non-empty and distinct.  File inputs
need no exemption here: their snapshot entry exists but the decode branch
never mutates them. -/
theorem roundtrip_amended (ex : List String) (f : Form) (h : RoundtripOK f) :
    applyFormState f (extractFormState ex f) = f :=
  applyFormState_extract_eq ex f h

theorem roundtrip_amended_witness :
    RoundtripOK sampleForm ∧
    applyFormState sampleForm (extractFormState defaultExcludeFields sampleForm)
      = sampleForm :=
  ⟨by decide, roundtrip_amended defaultExcludeFields sampleForm (by decide)⟩

/-- C4 counterexample: two checkboxes share name "c" and value "v", the
first checked and the second unchecked at encode time.  Decode's generic
pass checks BOTH (value match), and the `_unchecked` pass — which uses
`querySelector`, not `querySelectorAll` — forces only the FIRST unchecked.
The second checkbox, unchecked at encode, comes back CHECKED. -/
theorem unchecked_invariant_cex :
    applyFormState twoBoxForm (extractFormState defaultExcludeFields twoBoxForm)
      = [ { name := "c", etype := ElemType.checkbox, value := "v", checked := false, options := [] }
        , { name := "c", etype := ElemType.checkbox, value := "v", checked := true, options := [] } ] := by
  decide

/-- C4 amended: a checkbox unchecked at encode time decodes unchecked
provided no other control shares its name except checkboxes, none of which
is checked with the same value attribute; the forced-unchecked pass itself
only ever targets the first checkbox of each recorded name and only ever
clears, never sets. -/
theorem unchecked_invariant_amended (ex : List String) (f : Form) (i : Nat)
    (hi : i < f.length)
    (hj : i < (applyFormState f (extractFormState ex f)).length)
    (hcb : f[i].etype = ElemType.checkbox)
    (hun : f[i].checked = false)
    (hiso : ∀ b ∈ f, b.name = f[i].name →
      b.etype = ElemType.checkbox ∧ (b.checked = true → b.value ≠ f[i].value)) :
    (applyFormState f (extractFormState ex f))[i].checked = false := by
  have hlen1 : i < (List.foldl (fun (g : Form) (kv : String × StateVal) =>
      restoreField g kv.1 kv.2) f
      ((extractFormState ex f).fields.filter (fun kv => isMetaKey kv.1 = false))).length := by
    rw [foldl_restoreField_eq_map, List.length_map]
    exact hi
  show (List.foldl uncheckFirst _ (extractFormState ex f).unchecked)[i].checked = false
  refine getElem_foldl_uncheckFirst_checked_false _ _ i hlen1 hj ?_
  simp only [foldl_restoreField_eq_map, List.getElem_map]
  set e := f[i] with hei
  have he : e ∈ f := by
    rw [hei]
    exact List.getElem_mem hi
  have hndfil : (keysOf ((extractFormState ex f).fields.filter
      (fun kv => isMetaKey kv.1 = false))).Nodup :=
    keysOf_filter_nodup _ _ (keysOf_extract_nodup ex f)
  rw [foldl_restoreElem_lookup _ hndfil e]
  cases hlk : List.lookup e.name ((extractFormState ex f).fields.filter
      (fun kv => isMetaKey kv.1 = false)) with
  | none => exact hun
  | some v =>
      have hfull : List.lookup e.name (extractFormState ex f).fields = some v :=
        lookup_filter_sub _ _ (keysOf_extract_nodup ex f) hlk
      rw [lookup_extract_fields, checkedRadios_filter_name] at hfull
      by_cases hex : e.name ∈ ex
      · rw [if_pos hex] at hfull
        cases hfull
      · rw [if_neg hex] at hfull
        have hallcb : ∀ b ∈ bearers f e.name, b.etype = ElemType.checkbox :=
          fun b hb => (hiso b (mem_of_mem_bearers hb).1 (mem_of_mem_bearers hb).2).1
        have hrad : (bearers f e.name).filter
            (fun b => b.etype = ElemType.radio ∧ b.checked = true) = [] := by
          rw [List.filter_eq_nil_iff]
          intro b hb
          simp [hallcb b hb]
        rw [hrad] at hfull
        simp only [List.getLast?_nil] at hfull
        show (restoreElem e.name v e).checked = false
        rw [restoreElem_self_checkbox hcb]
        show checkboxChecked v e.value = false
        rw [checkboxChecked_eq_contains]
        cases hcon : (itemsOf v).contains (SVal.s e.value)
        · rfl
        · exfalso
          have hmem : SVal.s e.value ∈ itemsOf v := List.elem_iff.mp hcon
          have hmem2 : SVal.s e.value ∈ (bearers f e.name).flatMap elemValues :=
            mem_of_combine _ v hfull (SVal.s e.value) hmem
          obtain ⟨b, hbm, hbv⟩ := List.mem_flatMap.mp hmem2
          have hbcb : b.etype = ElemType.checkbox := hallcb b hbm
          have hbchk : b.checked = true ∧ b.value = e.value := by
            unfold elemValues at hbv
            by_cases hbn : b.name = ""
            · simp [hbn] at hbv
            · rw [if_neg hbn, hbcb] at hbv
              cases hbc : b.checked
              · rw [hbc] at hbv
                simp at hbv
              · rw [hbc] at hbv
                simp at hbv
                exact ⟨rfl, hbv.symm⟩
          exact (hiso b (mem_of_mem_bearers hbm).1 (mem_of_mem_bearers hbm).2).2
            hbchk.1 hbchk.2

theorem unchecked_invariant_amended_witness :
    ((1 < sampleForm.length ∧
        sampleForm[1].etype = ElemType.checkbox ∧
        sampleForm[1].checked = false) ∧
      (∀ b ∈ sampleForm, b.name = sampleForm[1].name →
        b.etype = ElemType.checkbox ∧ (b.checked = true → b.value ≠ sampleForm[1].value))) ∧
    ((applyFormState sampleForm (extractFormState defaultExcludeFields sampleForm)).get
      ⟨1, by rw [applyFormState_length]; decide⟩).checked = false :=
  ⟨⟨⟨by decide, by decide, by decide⟩, by decide⟩,
    unchecked_invariant_amended defaultExcludeFields sampleForm 1 (by decide)
      (by rw [applyFormState_length]; decide) (by decide) (by decide) (by decide)⟩

/-- C5: a name in `excludeFields` never appears in the encoded snapshot —
neither among the field entries nor in the `_unchecked` metadata — and
every control bearing that name is left untouched by decode on any target
form. -/
theorem excluded_never_encoded_nor_restored (ex : List String) (n : String)
    (f target : Form) (h : n ∈ ex) :
    List.lookup n (extractFormState ex f).fields = none ∧
    n ∉ (extractFormState ex f).unchecked ∧
    (∀ i (hi : i < target.length)
      (hj : i < (applyFormState target (extractFormState ex f)).length),
      target[i].name = n →
      (applyFormState target (extractFormState ex f))[i] = target[i]) := by
  have hlk : List.lookup n (extractFormState ex f).fields = none := by
    rw [lookup_extract_fields, if_pos h]
  refine ⟨hlk, ?_, ?_⟩
  · intro hmem
    unfold extractFormState uncheckedNames at hmem
    obtain ⟨eu, heu, hname⟩ := List.mem_map.mp hmem
    have hprops : eu.etype = ElemType.checkbox ∧ eu.name ∉ ex ∧ eu.checked = false := by
      simpa using (List.mem_filter.mp heu).2
    exact hprops.2.1 (hname ▸ h)
  · intro i hi hj hname
    have hkeys : ∀ kv ∈ (extractFormState ex f).fields.filter
        (fun kv => isMetaKey kv.1 = false), kv.1 ≠ target[i].name := by
      intro kv hkv hc
      have hfull : kv ∈ (extractFormState ex f).fields := (List.mem_filter.mp hkv).1
      have hmemk : n ∈ keysOf (extractFormState ex f).fields := by
        rw [← hname, ← hc]
        exact List.mem_map_of_mem Prod.fst hfull
      exact not_mem_keys_of_lookup_eq_none hlk hmemk
    have hlen1 : i < (List.foldl (fun (g : Form) (kv : String × StateVal) =>
        restoreField g kv.1 kv.2) target
        ((extractFormState ex f).fields.filter (fun kv => isMetaKey kv.1 = false))).length := by
      rw [foldl_restoreField_eq_map, List.length_map]
      exact hi
    have hpass1 : (List.foldl (fun (g : Form) (kv : String × StateVal) =>
        restoreField g kv.1 kv.2) target
        ((extractFormState ex f).fields.filter (fun kv => isMetaKey kv.1 = false)))[i]
        = target[i] := by
      simp only [foldl_restoreField_eq_map, List.getElem_map]
      exact foldl_restoreElem_of_ne _ _ hkeys
    have hnames2 : ∀ m ∈ (extractFormState ex f).unchecked,
        (List.foldl (fun (g : Form) (kv : String × StateVal) =>
          restoreField g kv.1 kv.2) target
          ((extractFormState ex f).fields.filter (fun kv => isMetaKey kv.1 = false)))[i].name
          ≠ m := by
      intro m hm
      rw [hpass1, hname]
      unfold extractFormState uncheckedNames at hm
      obtain ⟨eu, heu, hnm⟩ := List.mem_map.mp hm
      have hprops : eu.etype = ElemType.checkbox ∧ eu.name ∉ ex ∧ eu.checked = false := by
        simpa using (List.mem_filter.mp heu).2
      intro hc
      exact hprops.2.1 (hnm ▸ hc ▸ h)
    show (List.foldl uncheckFirst _ (extractFormState ex f).unchecked)[i] = target[i]
    rw [getElem_foldl_uncheckFirst_of_name_ne _ _ i hlen1 hj hnames2]
    exact hpass1

theorem excluded_never_encoded_nor_restored_witness :
    ("honeypot" ∈ defaultExcludeFields) ∧
    (List.lookup "honeypot" (extractFormState defaultExcludeFields
        [ { name := "honeypot", etype := ElemType.text, value := "h", checked := false, options := [] } ]).fields
      = none) := by
  constructor
  · decide
  · exact (excluded_never_encoded_nor_restored defaultExcludeFields "honeypot"
      [ { name := "honeypot", etype := ElemType.text, value := "h", checked := false, options := [] } ]
      [] (by decide)).1

/-- C6 counterexample: two text inputs share the name "a", the first with
the EMPTY value.  `if (state[key])` is a truthiness test and the empty
string is falsy, so the second value overwrites instead of promoting: the
encoded entry is the scalar "x", not a two-element list. -/
theorem multivalue_accumulation_cex :
    List.lookup "a" (extractFormState defaultExcludeFields emptyFirstForm).fields
      = some (StateVal.one (SVal.s "x")) ∧
    List.lookup "a" (extractFormState defaultExcludeFields emptyFirstForm).fields
      ≠ some (StateVal.many [SVal.s "", SVal.s "x"]) := by
  constructor
  · decide
  · decide

/-- C6 amended: encoding two or more text controls sharing a name yields the
list of all their values in encounter order PROVIDED the first captured
value is non-empty; when the first value is the empty string (falsy in JS),
the next value replaces it as a scalar instead of promoting to a list. -/
theorem multivalue_accumulation_amended (ex : List String) (f : Form) (n : String)
    (e1 e2 : Elem) (rest : List Elem)
    (hb : bearers f n = e1 :: e2 :: rest)
    (ht : ∀ b ∈ bearers f n, b.etype = ElemType.text ∧ b.name ≠ "")
    (hx : n ∉ ex) (hv : e1.value ≠ "") :
    List.lookup n (extractFormState ex f).fields
      = some (StateVal.many ((e1 :: e2 :: rest).map (fun b => SVal.s b.value))) := by
  rw [lookup_extract_fields, checkedRadios_filter_name, if_neg hx]
  have hrad : (bearers f n).filter
      (fun b => b.etype = ElemType.radio ∧ b.checked = true) = [] := by
    rw [List.filter_eq_nil_iff]
    intro b hbm
    simp [(ht b hbm).1]
  rw [hrad]
  simp only [List.getLast?_nil]
  have hflat : (bearers f n).flatMap elemValues
      = (e1 :: e2 :: rest).map (fun b => SVal.s b.value) := by
    rw [← hb]
    apply flatMap_singleton_eq_map
    intro b hbm
    have h2 := ht b hbm
    simp [elemValues, h2.1, h2.2]
  rw [hflat]
  simp only [List.map_cons]
  exact combine_cons_of_truthy _ _ (by simp [truthy, hv]) (by simp)

theorem multivalue_accumulation_amended_witness :
    (bearers twoTextForm "a"
        = [ { name := "a", etype := ElemType.text, value := "x", checked := false, options := [] }
          , { name := "a", etype := ElemType.text, value := "y", checked := false, options := [] } ] ∧
      (∀ b ∈ bearers twoTextForm "a", b.etype = ElemType.text ∧ b.name ≠ "") ∧
      "a" ∉ defaultExcludeFields) ∧
    List.lookup "a" (extractFormState defaultExcludeFields twoTextForm).fields
      = some (StateVal.many [SVal.s "x", SVal.s "y"]) :=
  ⟨⟨by decide, by decide, by decide⟩,
    multivalue_accumulation_amended defaultExcludeFields twoTextForm "a"
      { name := "a", etype := ElemType.text, value := "x", checked := false, options := [] }
      { name := "a", etype := ElemType.text, value := "y", checked := false, options := [] }
      [] (by decide) (by decide) (by decide) (by decide)⟩

end Freeform
